import Mathlib

/-!
Verification development for the `hardis:project:audit:callincallout` command
(`src/commands/hardis/project/audit/callincallout.ts`).

The command scans Apex source files with a static registry of "catchers"
(a primary regular expression plus named detail extractors), aggregates the
matches into report rows, sorts them with `sort-array`, renders a console
table on a deep copy of the rows, hands the rows to `generateReports`, and
returns a payload with the sorted rows and the generated report files.

Strings are modelled as Lean `String`s; the character-level operations the
command performs (`startsWith`, `includes`, `split`, the newline /
whitespace normalisation of detail captures) are embedded as explicit
recursive functions over `List Char`.
-/

namespace CallInCallOut

/-- Boolean test that list `l` starts with `pat` (JS `String.startsWith`
restricted to the character lists of the two strings). -/
def leadsWith : List Char → List Char → Bool
  | [], _ => true
  | _ :: _, [] => false
  | p :: ps, c :: cs => p == c && leadsWith ps cs

/-- Boolean test that `pat` occurs somewhere in `l` (JS `String.includes`). -/
def hasSub (pat : List Char) : List Char → Bool
  | [] => leadsWith pat []
  | c :: cs => leadsWith pat (c :: cs) || hasSub pat cs

/-- Characters of `l` strictly before the first occurrence of `pat`
(JS `str.split(pat)[0]` when `pat` occurs in `str`). -/
def beforeFirst (pat : List Char) : List Char → List Char
  | [] => []
  | c :: cs => if leadsWith pat (c :: cs) then [] else c :: beforeFirst pat cs

/-- String-level wrapper of `hasSub` (JS `s.includes(pat)`). -/
def hasSubStr (s pat : String) : Bool :=
  hasSub pat.toList s.toList

/-- String-level wrapper of `leadsWith` (JS `s.startsWith(pat)`). -/
def beginsWith (s pat : String) : Bool :=
  leadsWith pat.toList s.toList

/-- Embedding of `.replace(/(\r\n|\n|\r)/gm, '')`: every carriage return and
line feed character is removed. -/
def stripNewlines (l : List Char) : List Char :=
  l.filter (fun c => !(c == '\r' || c == '\n'))

/-- Characters matched by the JS regex class `\s`: the ASCII whitespace
characters (space, tab, line feed, carriage return, vertical tab, form
feed) together with the Unicode whitespace code points `\s` also matches:
no-break space U+00A0, ogham space mark U+1680, the en-quad..hair-space
range U+2000-U+200A, line separator U+2028, paragraph separator U+2029,
narrow no-break space U+202F, medium mathematical space U+205F, ideographic
space U+3000 and the byte-order mark U+FEFF. -/
def isWsChar (c : Char) : Bool :=
  c == ' ' || c == '\t' || c == '\n' || c == '\r' || c == '\x0b' || c == '\x0c'
  || c == '\u00A0' || c == '\u1680'
  || ('\u2000' ≤ c && c ≤ '\u200A')
  || c == '\u2028' || c == '\u2029' || c == '\u202F' || c == '\u205F'
  || c == '\u3000' || c == '\uFEFF'

/-- Embedding of `.replace(/\s+/g, ' ')`: every maximal run of whitespace
characters is replaced by a single space. -/
def collapseWs : List Char → List Char
  | [] => []
  | c :: cs =>
    if isWsChar c then ' ' :: collapseWs (cs.dropWhile isWsChar)
    else c :: collapseWs cs
termination_by l => l.length
decreasing_by
  · exact Nat.lt_succ_of_le ((List.dropWhile_sublist isWsChar).length_le)
  · exact Nat.lt_succ_self _

/-- Normalisation applied to each extracted detail string in the row
formatting step of `run` (lines 102-106 of the source): newlines removed,
then repeated whitespace collapsed to single spaces. -/
def normalizeCapture (s : String) : String :=
  String.mk (collapseWs (stripNewlines s.toList))

/-- One entry of a catcher's `detail` list. The regular expression is
embedded by its denotation: the ordered list of first-group captures it
extracts from a file text. -/
structure DetailExtractor where
  name : String
  captures : String → List String

/-- One entry of the static `catchers` registry (lines 47-69 of the source).
The primary regular expression is embedded by its denotation: the number of
non-overlapping matches it finds in a file text. -/
structure Catcher where
  type : String
  subType : String
  countMatches : String → Nat
  detail : List DetailExtractor

/-- Raw match result for one (catcher, file) pair, as pushed onto
`this.matchResults`. The `detail` field is the insertion-ordered map from
detail-extractor name to the list of captured strings. -/
structure MatchRecord where
  type : String
  subType : String
  fileName : String
  -- named `matches` in the source; `matches` is a reserved token in Lean
  matchCount : Nat
  detail : List (String × List String)
deriving DecidableEq, Repr

/-- Modelled from the spec: `catchMatches` from `common/utils` is imported by
the command but its source is not part of this repository snapshot. Per the
spec (section 4.2), it counts the primary-pattern matches `n` in the file
text; when `n = 0` it emits nothing, and when `n > 0` it emits exactly one
match record for the (catcher, file) pair with `matchCount = n` and one
detail-capture entry per extractor, in declaration order, each holding every
capture of that extractor over the same full file text. -/
def catchMatches (catcher : Catcher) (fileName fileText : String) :
    List MatchRecord :=
  let n := catcher.countMatches fileText
  if n = 0 then []
  else
    [{ type := catcher.type
       subType := catcher.subType
       fileName := fileName
       matchCount := n
       detail := catcher.detail.map fun d => (d.name, d.captures fileText) }]

/-- File presented to the scan loop: a name and its full text content. -/
structure FileEntry where
  name : String
  text : String

/-- Content pre-filter of the scan loop (line 76 of the source): a file is
skipped when its text starts with `hidden` or contains `@isTest`. -/
def skippedFile (text : String) : Bool :=
  beginsWith text "hidden" || hasSubStr text "@isTest"

/-- Body of the per-file scan loop (lines 74-84 of the source): a skipped
file contributes nothing, otherwise every catcher is evaluated on the file
and the resulting records are concatenated in catcher order. -/
def scanFile (catchers : List Catcher) (f : FileEntry) : List MatchRecord :=
  if skippedFile f.text then []
  else catchers.flatMap fun c => catchMatches c f.name f.text

/-- Whole scan loop over the file list, accumulating `this.matchResults`. -/
def runScan (catchers : List Catcher) (files : List FileEntry) :
    List MatchRecord :=
  files.flatMap (scanFile catchers)

/-- Outcome of reading one file with `fs.readFile`: either its text, or a
thrown input-output error carrying a message. -/
inductive ReadResult where
  | ok (text : String)
  | ioError (msg : String)
deriving DecidableEq, Repr

/-- File as seen by the scan loop when reads can fail. -/
structure FsFile where
  name : String
  read : ReadResult
deriving DecidableEq, Repr

/-- Scan loop of `run` (lines 74-84 of the source) with fallible reads. The
`await fs.readFile(file, 'utf8')` call is not wrapped in any try/catch, so a
rejected read propagates out of the loop: the whole scan fails with that
error and no result list is produced. -/
def runScanFs (catchers : List Catcher) : List FsFile → Except String (List MatchRecord)
  | [] => .ok []
  | f :: rest =>
    match f.read with
    | .ioError e => .error e
    | .ok text =>
      match runScanFs catchers rest with
      | .error e => .error e
      | .ok rs =>
        .ok ((if skippedFile text then []
              else catchers.flatMap fun c => catchMatches c f.name text) ++ rs)

/-- Report row produced by the formatting `map` of `run` (lines 87-111). -/
structure ReportRow where
  type : String
  subType : String
  fileName : String
  nameSpace : String
  -- named `matches` in the source; `matches` is a reserved token in Lean
  matchCount : Nat
  detail : String
deriving DecidableEq, Repr

/-- Embedding of line 92 of the source:
`item.fileName.includes('__') ? item.fileName.split('__')[0] : 'Custom'`. -/
def nameSpaceOf (fileName : String) : String :=
  if hasSubStr fileName "__" then
    String.mk (beforeFirst "__".toList fileName.toList)
  else "Custom"

/-- Embedding of lines 100-107: the captures of one detail name are
normalised and joined with the delimiter `" | "`. -/
def formatCaptures (texts : List String) : String :=
  String.intercalate " | " (texts.map normalizeCapture)

/-- Embedding of lines 94-109: `name: captures` groups joined with the
delimiter `" || "`. The source appends `|| ''`, which only replaces the
falsy empty string by itself, so the join alone is faithful. -/
def formatDetail (detail : List (String × List String)) : String :=
  String.intercalate " || " (detail.map fun kv => kv.1 ++ ": " ++ formatCaptures kv.2)

/-- Embedding of the formatting `map` body (lines 87-111 of the source). -/
def toRow (item : MatchRecord) : ReportRow :=
  { type := item.type
    subType := item.subType
    fileName := item.fileName
    nameSpace := nameSpaceOf item.fileName
    matchCount := item.matchCount
    detail := formatDetail item.detail }

/-- Boolean total preorder on character lists: lexicographic by scalar
value, the order JS `<` induces on the strings the command compares. -/
def lexLe : List Char → List Char → Bool
  | [], _ => true
  | _ :: _, [] => false
  | a :: as, b :: bs => if a = b then lexLe as bs else decide (a < b)

/-- String-level wrapper of `lexLe`. -/
def strLe (a b : String) : Bool :=
  lexLe a.toList b.toList

/-- One stage of a multi-key comparator: tie on this string key falls
through to the comparison `rest` of the remaining keys, otherwise the key
decides, ascending. -/
def keyLe (ka kb : String) (rest : Bool) : Bool :=
  if ka = kb then rest else strLe ka kb

/-- Comparator configured by lines 114-117 of the source:
`by: ['type', 'subType', 'fileName', 'matches']` with
`order: ['asc', 'asc', 'asc', 'desc']`. Ties on the three ascending string
keys fall through to the next key; the final key compares `matches`
descending. -/
def rowLe (a b : ReportRow) : Bool :=
  keyLe a.type b.type
    (keyLe a.subType b.subType
      (keyLe a.fileName b.fileName
        (decide (b.matchCount ≤ a.matchCount))))

/-- Modelled from the spec: `sortArray` comes from the external `sort-array`
package, absent from this snapshot. Per the spec (section 4.3), it is a
stable multi-key sort ordering by the configured keys and directions and
producing a new ordered sequence; it is embedded as a stable merge sort with
the comparator `rowLe`. -/
def sortRows (rows : List ReportRow) : List ReportRow :=
  rows.mergeSort rowLe

/-- Sort key quadruple of a report row: the four fields the comparator of
lines 114-117 inspects. -/
def rowKey (r : ReportRow) : String × String × String × Nat :=
  (r.type, r.subType, r.fileName, r.matchCount)

/-- One entry of the `columns` specification (lines 129-136). -/
structure Column where
  key : String
  header : String
deriving DecidableEq, Repr

/-- Embedding of the literal `columns` list of lines 129-136. -/
def auditColumns : List Column :=
  [⟨"type", "IN/OUT"⟩, ⟨"subType", "Protocol"⟩, ⟨"fileName", "Apex"⟩,
   ⟨"nameSpace", "Namespace"⟩, ⟨"matches", "Number"⟩, ⟨"detail", "Detail"⟩]

/-- Report row after `delete item.detail` (line 123): the shape of the rows
handed to `console.table`. -/
structure ReportRowLight where
  type : String
  subType : String
  fileName : String
  nameSpace : String
  matchCount : Nat
deriving DecidableEq, Repr

/-- Embedding of `JSON.parse(JSON.stringify(...))` on one row (line 120): a
structural, field-by-field copy. Every field of a row serialises and parses
back unchanged, so the copy is built by re-reading each field. -/
def cloneRow (r : ReportRow) : ReportRow :=
  { type := r.type
    subType := r.subType
    fileName := r.fileName
    nameSpace := r.nameSpace
    matchCount := r.matchCount
    detail := r.detail }

/-- Embedding of the display `map` body (lines 122-125): the `detail` field
is deleted from a (copied) row. -/
def stripDetail (r : ReportRow) : ReportRowLight :=
  { type := r.type
    subType := r.subType
    fileName := r.fileName
    nameSpace := r.nameSpace
    matchCount := r.matchCount }

/-- Rows handed to `console.table` (lines 120-126): each sorted row is deep
copied, then the copy loses its `detail` field. -/
def tableRows (resultSorted : List ReportRow) : List ReportRowLight :=
  (resultSorted.map cloneRow).map stripDetail

/-- Object returned by `run` (lines 140-144). `ρ` is the type of whatever
the report writer hands back, so that the payload shape is independent of
the writer's outcome. -/
structure CmdPayload (ρ : Type) where
  outputString : String
  result : List ReportRow
  reportFiles : ρ
deriving Repr

/-- Observable output of one `run` invocation: the rows rendered to the
console table, and the returned payload. -/
structure RunOutput (ρ : Type) where
  consoleTable : List ReportRowLight
  payload : CmdPayload ρ
deriving Repr

/-- Embedding of the tail of `run` (lines 86-145): format the match results
into rows, sort them, render the console table on a deep copy, call the
report writer on the sorted rows and the column specification, and return
the payload. `generateReports` is modelled from the spec: its source in
`common/utils` is not part of this snapshot, and per the spec (sections 6
and 7) it returns the generated artifact handles — with an export failure
surfaced inside that returned value rather than thrown — so it is taken
here as an arbitrary function into an arbitrary outcome type `ρ`. -/
def runCommand {ρ : Type} (catchers : List Catcher) (files : List FileEntry)
    (generateReports : List ReportRow → List Column → ρ) : RunOutput ρ :=
  let result := (runScan catchers files).map toRow
  let resultSorted := sortRows result
  let reportFiles := generateReports resultSorted auditColumns
  { consoleTable := tableRows resultSorted
    payload :=
      { outputString := "Processed callIns and callOuts audit"
        result := resultSorted
        reportFiles := reportFiles } }

/-! Lemmas about the lexicographic string comparator. -/

theorem lexLe_refl : ∀ x : List Char, lexLe x x = true
  | [] => rfl
  | a :: as => by simp [lexLe, lexLe_refl as]

theorem lexLe_total : ∀ x y : List Char, (lexLe x y || lexLe y x) = true
  | [], _ => by simp [lexLe]
  | _ :: _, [] => by simp [lexLe]
  | a :: as, b :: bs => by
    by_cases h : a = b
    · subst h
      simpa [lexLe] using lexLe_total as bs
    · have h' : ¬ b = a := fun e => h e.symm
      simp only [lexLe, if_neg h, if_neg h', Bool.or_eq_true, decide_eq_true_eq]
      exact lt_or_gt_of_ne h

theorem lexLe_trans : ∀ {x y z : List Char},
    lexLe x y = true → lexLe y z = true → lexLe x z = true
  | [], _, z, _, _ => by simp [lexLe]
  | _ :: _, [], _, h, _ => by simp [lexLe] at h
  | _ :: _, _ :: _, [], _, h => by simp [lexLe] at h
  | a :: as, b :: bs, c :: cs, h1, h2 => by
    by_cases hab : a = b
    · subst hab
      by_cases hac : a = c
      · subst hac
        simp only [lexLe, if_pos rfl] at h1 h2 ⊢
        exact lexLe_trans h1 h2
      · simp only [lexLe, if_pos rfl] at h1
        simpa only [lexLe, if_neg hac] using h2
    · by_cases hbc : b = c
      · subst hbc
        simpa only [lexLe, if_neg hab] using h1
      · simp only [lexLe, if_neg hab, if_neg hbc, decide_eq_true_eq] at h1 h2
        have hac : a < c := lt_trans h1 h2
        simp only [lexLe, if_neg (ne_of_lt hac), decide_eq_true_eq]
        exact hac

theorem lexLe_antisymm : ∀ {x y : List Char},
    lexLe x y = true → lexLe y x = true → x = y
  | [], [], _, _ => rfl
  | [], _ :: _, _, h => by simp [lexLe] at h
  | _ :: _, [], h, _ => by simp [lexLe] at h
  | a :: as, b :: bs, h1, h2 => by
    by_cases hab : a = b
    · subst hab
      simp only [lexLe, if_pos rfl] at h1 h2
      rw [lexLe_antisymm h1 h2]
    · have h' : ¬ b = a := fun e => hab e.symm
      simp only [lexLe, if_neg hab, if_neg h', decide_eq_true_eq] at h1 h2
      exact absurd h2 (lt_asymm h1)

theorem strLe_refl (x : String) : strLe x x = true :=
  lexLe_refl x.toList

theorem strLe_total (x y : String) : (strLe x y || strLe y x) = true :=
  lexLe_total x.toList y.toList

theorem strLe_trans {x y z : String} (h1 : strLe x y = true)
    (h2 : strLe y z = true) : strLe x z = true :=
  lexLe_trans h1 h2

theorem strLe_antisymm {x y : String} (h1 : strLe x y = true)
    (h2 : strLe y x = true) : x = y :=
  String.ext (lexLe_antisymm h1 h2)

/-! Lemmas about the multi-key row comparator. -/

theorem keyLe_trans {ka kb kc : String} {r1 r2 r3 : Bool}
    (hr : r1 = true → r2 = true → r3 = true)
    (h1 : keyLe ka kb r1 = true) (h2 : keyLe kb kc r2 = true) :
    keyLe ka kc r3 = true := by
  by_cases e1 : ka = kb
  · by_cases e2 : kb = kc
    · have e3 : ka = kc := e1.trans e2
      rw [keyLe, if_pos e1] at h1
      rw [keyLe, if_pos e2] at h2
      rw [keyLe, if_pos e3]
      exact hr h1 h2
    · have e3 : ¬ ka = kc := fun h => e2 (e1.symm.trans h)
      rw [keyLe, if_neg e2] at h2
      rw [keyLe, if_neg e3, e1]
      exact h2
  · by_cases e2 : kb = kc
    · have e3 : ¬ ka = kc := fun h => e1 (h.trans e2.symm)
      rw [keyLe, if_neg e1] at h1
      rw [keyLe, if_neg e3, ← e2]
      exact h1
    · rw [keyLe, if_neg e1] at h1
      rw [keyLe, if_neg e2] at h2
      have e3 : ¬ ka = kc := by
        intro h
        subst h
        exact e1 (strLe_antisymm h1 h2)
      rw [keyLe, if_neg e3]
      exact strLe_trans h1 h2

theorem keyLe_total {ka kb : String} {r1 r2 : Bool} (hr : (r1 || r2) = true) :
    (keyLe ka kb r1 || keyLe kb ka r2) = true := by
  by_cases e : ka = kb
  · rw [keyLe, if_pos e, keyLe, if_pos e.symm]
    exact hr
  · rw [keyLe, if_neg e, keyLe, if_neg (fun h => e h.symm)]
    exact strLe_total ka kb

theorem rowLe_trans (a b c : ReportRow) (h1 : rowLe a b = true)
    (h2 : rowLe b c = true) : rowLe a c = true := by
  refine keyLe_trans (fun x1 x2 => keyLe_trans (fun y1 y2 =>
    keyLe_trans (fun z1 z2 => ?_) y1 y2) x1 x2) h1 h2
  simp only [decide_eq_true_eq] at z1 z2 ⊢
  exact Nat.le_trans z2 z1

theorem rowLe_total (a b : ReportRow) : (rowLe a b || rowLe b a) = true := by
  refine keyLe_total (keyLe_total (keyLe_total ?_))
  simp only [Bool.or_eq_true, decide_eq_true_eq]
  exact Nat.le_total b.matchCount a.matchCount

theorem rowLe_of_key_eq {a b : ReportRow} (h : rowKey a = rowKey b) :
    rowLe a b = true := by
  obtain ⟨h1, h2, h3, h4⟩ : a.type = b.type ∧ a.subType = b.subType
      ∧ a.fileName = b.fileName ∧ a.matchCount = b.matchCount := by
    simpa [rowKey, Prod.ext_iff] using h
  simp [rowLe, keyLe, h1, h2, h3, h4]

/-! Lemmas about `sortRows`. -/

theorem sortRows_perm (rows : List ReportRow) : List.Perm (sortRows rows) rows :=
  List.mergeSort_perm rows rowLe

theorem sortRows_sorted (rows : List ReportRow) :
    (sortRows rows).Pairwise (fun a b => rowLe a b = true) :=
  List.sorted_mergeSort rowLe_trans rowLe_total rows

theorem sortRows_filter_key (rows : List ReportRow)
    (k : String × String × String × Nat) :
    (sortRows rows).filter (fun r => decide (rowKey r = k))
      = rows.filter (fun r => decide (rowKey r = k)) := by
  set p : ReportRow → Bool := fun r => decide (rowKey r = k) with hp
  have hpair : (rows.filter p).Pairwise (fun a b => rowLe a b = true) := by
    apply List.pairwise_of_forall_mem_list
    intro a ha b hb
    have ha' : rowKey a = k := by
      have := (List.mem_filter.mp ha).2
      simpa [hp] using this
    have hb' : rowKey b = k := by
      have := (List.mem_filter.mp hb).2
      simpa [hp] using this
    exact rowLe_of_key_eq (ha'.trans hb'.symm)
  have hsub : List.Sublist (rows.filter p) (sortRows rows) :=
    List.sublist_mergeSort rowLe_trans rowLe_total hpair (List.filter_sublist rows)
  have hsub2 : List.Sublist ((rows.filter p).filter p) ((sortRows rows).filter p) :=
    hsub.filter p
  rw [List.filter_filter] at hsub2
  have hsub3 : List.Sublist (rows.filter p) ((sortRows rows).filter p) := by
    simpa using hsub2
  have hlen : ((sortRows rows).filter p).length = (rows.filter p).length :=
    ((sortRows_perm rows).filter p).length_eq
  exact (hsub3.eq_of_length hlen.symm).symm

/-! Lemmas about substring occurrence and the first-occurrence split. -/

theorem leadsWith_iff_append {pat l : List Char} :
    leadsWith pat l = true ↔ ∃ suf, l = pat ++ suf := by
  induction pat generalizing l with
  | nil => simp [leadsWith]
  | cons p ps ih =>
    cases l with
    | nil =>
      simp only [leadsWith, List.cons_append]
      constructor
      · intro h
        cases h
      · rintro ⟨suf, h⟩
        cases h
    | cons c cs =>
      simp only [leadsWith, Bool.and_eq_true, beq_iff_eq, List.cons_append,
        List.cons.injEq, ih]
      constructor
      · rintro ⟨rfl, suf, rfl⟩
        exact ⟨suf, rfl, rfl⟩
      · rintro ⟨suf, rfl, rfl⟩
        exact ⟨rfl, suf, rfl⟩

theorem beforeFirst_spec {pat : List Char} : ∀ {l : List Char},
    hasSub pat l = true →
    ∃ suf, l = beforeFirst pat l ++ pat ++ suf
      ∧ ∀ j, j < (beforeFirst pat l).length → leadsWith pat (l.drop j) = false
  | [], h => by
    have hp : pat = [] := by
      cases pat with
      | nil => rfl
      | cons p ps => simp [hasSub, leadsWith] at h
    subst hp
    exact ⟨[], by simp [beforeFirst], by simp [beforeFirst]⟩
  | c :: cs, h => by
    by_cases hp : leadsWith pat (c :: cs) = true
    · obtain ⟨suf, hsuf⟩ := leadsWith_iff_append.mp hp
      refine ⟨suf, ?_, ?_⟩
      · simpa [beforeFirst, hp] using hsuf
      · intro j hj
        simp [beforeFirst, hp] at hj
    · have h' : hasSub pat cs = true := by
        have := h
        simp only [hasSub, Bool.or_eq_true] at this
        rcases this with h1 | h2
        · exact absurd h1 hp
        · exact h2
      obtain ⟨suf, hsuf, hmin⟩ := beforeFirst_spec h'
      have hbf : beforeFirst pat (c :: cs) = c :: beforeFirst pat cs := by
        simp [beforeFirst, hp]
      refine ⟨suf, ?_, ?_⟩
      · rw [hbf]
        simpa using congrArg (c :: ·) hsuf
      · intro j hj
        cases j with
        | zero =>
          simpa using eq_false_of_ne_true hp
        | succ i =>
          rw [hbf] at hj
          simp only [List.length_cons, Nat.succ_lt_succ_iff] at hj
          simpa using hmin i hj

/-! Lemmas about `String.intercalate`. -/

theorem intercalate_go_append (s : String) :
    ∀ (t : List String) (x y : String),
      String.intercalate.go (x ++ y) s t = x ++ String.intercalate.go y s t
  | [], x, y => rfl
  | a :: as, x, y => by
    show String.intercalate.go ((x ++ y) ++ s ++ a) s as
        = x ++ String.intercalate.go (y ++ s ++ a) s as
    rw [String.append_assoc x y s, String.append_assoc x (y ++ s) a,
      String.append_assoc y s a]
    exact intercalate_go_append s as x (y ++ (s ++ a))

theorem intercalate_cons (s a : String) (t : List String) :
    String.intercalate s (a :: t)
      = a ++ (if t = [] then "" else s ++ String.intercalate s t) := by
  cases t with
  | nil =>
    show a = a ++ (if ([] : List String) = [] then "" else _)
    simp
  | cons b bs =>
    show String.intercalate.go a s (b :: bs)
        = a ++ (if (b :: bs : List String) = [] then "" else s ++ String.intercalate.go b s bs)
    simp only [List.cons_ne_nil, if_neg (by simp : ¬ (b :: bs : List String) = [])]
    show String.intercalate.go (a ++ s ++ b) s bs = a ++ (s ++ String.intercalate.go b s bs)
    rw [String.append_assoc a s b, intercalate_go_append s bs a (s ++ b),
      intercalate_go_append s bs s b]

/-! Lemmas about the scan loop. -/

theorem scanFile_of_skipped {catchers : List Catcher} {f : FileEntry}
    (h : skippedFile f.text = true) : scanFile catchers f = [] := by
  simp [scanFile, h]

theorem runScan_append (catchers : List Catcher) (l₁ l₂ : List FileEntry) :
    runScan catchers (l₁ ++ l₂) = runScan catchers l₁ ++ runScan catchers l₂ := by
  simp [runScan]

theorem runScan_cons (catchers : List Catcher) (f : FileEntry) (l : List FileEntry) :
    runScan catchers (f :: l) = scanFile catchers f ++ runScan catchers l := by
  simp [runScan]

theorem keyLe_iff {ka kb : String} {r : Bool} :
    keyLe ka kb r = true ↔ (ka ≠ kb ∧ strLe ka kb = true) ∨ (ka = kb ∧ r = true) := by
  by_cases e : ka = kb <;> simp [keyLe, e]

/-! Claim theorems. -/

/-- C1: for every catcher and every scanned (non-skipped) file, the result
contains a match record for the catcher iff the primary pattern matches at
least once in the file text; in that case exactly one record is emitted for
the (catcher, file) pair, its match count is the exact count of primary
matches, and its detail captures hold one entry per detail extractor, in
declaration order. -/
theorem c1_matchRecord_emission :
    (∀ (c : Catcher) (fn ft : String),
      (catchMatches c fn ft).length = (if 0 < c.countMatches ft then 1 else 0)
      ∧ ∀ rec, rec ∈ catchMatches c fn ft →
          rec.matchCount = c.countMatches ft ∧ rec.type = c.type
          ∧ rec.subType = c.subType ∧ rec.fileName = fn
          ∧ rec.detail = c.detail.map fun d => (d.name, d.captures ft))
    ∧ ∀ (catchers : List Catcher) (f : FileEntry), skippedFile f.text = false →
        ∀ rec, rec ∈ scanFile catchers f
          ↔ ∃ c ∈ catchers, rec ∈ catchMatches c f.name f.text := by
  constructor
  · intro c fn ft
    constructor
    · by_cases h : c.countMatches ft = 0
      · simp [catchMatches, h]
      · simp [catchMatches, h, Nat.pos_of_ne_zero h]
    · intro rec hrec
      by_cases h : c.countMatches ft = 0
      · simp [catchMatches, h] at hrec
      · simp only [catchMatches, if_neg h, List.mem_singleton] at hrec
        subst hrec
        exact ⟨rfl, rfl, rfl, rfl, rfl⟩
  · intro catchers f hf rec
    simp [scanFile, hf, List.mem_flatMap]

/-- Concrete catcher used by the witness of C1. -/
def c1Catcher : Catcher :=
  { type := "OUTBOUND"
    subType := "HTTP"
    countMatches := fun t => if hasSubStr t "new HttpRequest" then 2 else 0
    detail := [{ name := "endPoint", captures := fun _ => ["setEndpoint(u)"] }] }

/-- Concrete file text used by the witness of C1. -/
def c1Text : String := "a = new HttpRequest(); b = new HttpRequest();"

theorem c1_matchRecord_emission_witness :
    (catchMatches c1Catcher "A.cls" c1Text).length = 1
    ∧ (⟨"OUTBOUND", "HTTP", "A.cls", 2, [("endPoint", ["setEndpoint(u)"])]⟩
        : MatchRecord).matchCount = c1Catcher.countMatches c1Text
    ∧ ∀ rec, rec ∈ scanFile [c1Catcher] ⟨"A.cls", c1Text⟩
        ↔ ∃ c ∈ [c1Catcher], rec ∈ catchMatches c "A.cls" c1Text := by
  refine ⟨?_, ?_, ?_⟩
  · rw [(c1_matchRecord_emission.1 c1Catcher "A.cls" c1Text).1]
    decide
  · exact ((c1_matchRecord_emission.1 c1Catcher "A.cls" c1Text).2
      ⟨"OUTBOUND", "HTTP", "A.cls", 2, [("endPoint", ["setEndpoint(u)"])]⟩
      (by decide)).1
  · exact c1_matchRecord_emission.2 [c1Catcher] ⟨"A.cls", c1Text⟩ (by decide)

/-- C2: the sort orders rows by `type` ascending, then `subType` ascending,
then `fileName` ascending, then `matches` descending, and it is stable: the
rows agreeing on all four sort keys appear in the output in their original
relative order (their per-key filtered subsequence is unchanged). -/
theorem c2_sortRows_spec (rows : List ReportRow) :
    ((sortRows rows).Pairwise fun a b => rowLe a b = true)
    ∧ (∀ a b : ReportRow, rowLe a b = true ↔
        (a.type ≠ b.type ∧ strLe a.type b.type = true)
        ∨ (a.type = b.type ∧
            ((a.subType ≠ b.subType ∧ strLe a.subType b.subType = true)
             ∨ (a.subType = b.subType ∧
                 ((a.fileName ≠ b.fileName ∧ strLe a.fileName b.fileName = true)
                  ∨ (a.fileName = b.fileName ∧ b.matchCount ≤ a.matchCount))))))
    ∧ List.Perm (sortRows rows) rows
    ∧ ∀ k, (sortRows rows).filter (fun r => decide (rowKey r = k))
          = rows.filter (fun r => decide (rowKey r = k)) := by
  refine ⟨sortRows_sorted rows, ?_, sortRows_perm rows, sortRows_filter_key rows⟩
  intro a b
  simp only [rowLe, keyLe_iff, decide_eq_true_eq]

/-- C3: the derived `detail` string is a pure function of the record's
detail captures alone; each captured string is normalised (newlines removed,
whitespace runs collapsed) before joining, the captures of one name are
joined by one delimiter and the name groups by a second delimiter, and the
string is empty when there are no detail captures at all. -/
theorem c3_detail_pure (r₁ r₂ : MatchRecord) (h : r₁.detail = r₂.detail) :
    (toRow r₁).detail = (toRow r₂).detail
    ∧ formatDetail [] = ""
    ∧ ∀ (k : String) (vs : List String) (rest : List (String × List String)),
        formatDetail ((k, vs) :: rest)
          = (k ++ ": " ++ String.intercalate " | " (vs.map normalizeCapture))
            ++ if rest = [] then "" else " || " ++ formatDetail rest := by
  refine ⟨?_, rfl, ?_⟩
  · show formatDetail r₁.detail = formatDetail r₂.detail
    rw [h]
  · intro k vs rest
    show String.intercalate " || "
        ((k ++ ": " ++ formatCaptures vs) :: rest.map fun kv => kv.1 ++ ": " ++ formatCaptures kv.2)
        = _
    rw [intercalate_cons]
    by_cases hrest : rest = []
    · simp [hrest, formatCaptures]
    · simp [formatCaptures, formatDetail, hrest]

theorem c3_detail_pure_witness :
    ((⟨"INBOUND", "SOAP", "A.cls", 1, [("webServiceName", ["getAccount"])]⟩
        : MatchRecord).detail
      = (⟨"OUTBOUND", "HTTP", "B.cls", 3, [("webServiceName", ["getAccount"])]⟩
        : MatchRecord).detail)
    ∧ (toRow ⟨"INBOUND", "SOAP", "A.cls", 1, [("webServiceName", ["getAccount"])]⟩).detail
      = (toRow ⟨"OUTBOUND", "HTTP", "B.cls", 3, [("webServiceName", ["getAccount"])]⟩).detail :=
  ⟨rfl,
   (c3_detail_pure
     ⟨"INBOUND", "SOAP", "A.cls", 1, [("webServiceName", ["getAccount"])]⟩
     ⟨"OUTBOUND", "HTTP", "B.cls", 3, [("webServiceName", ["getAccount"])]⟩ rfl).1⟩

/-- C4: the derived `nameSpace` of a row is the substring of `fileName`
strictly before the first occurrence of `__` when `fileName` contains `__`
(no occurrence of `__` starts before that point), and the literal `Custom`
otherwise; in particular `ns__MyClass.cls` yields `ns` and `MyClass.cls`
yields `Custom`. -/
theorem c4_nameSpace (f : String) :
    (hasSubStr f "__" = false → nameSpaceOf f = "Custom")
    ∧ (hasSubStr f "__" = true →
        ∃ suf : List Char,
          f.toList = (nameSpaceOf f).toList ++ "__".toList ++ suf
          ∧ ∀ j, j < (nameSpaceOf f).toList.length →
              leadsWith "__".toList (f.toList.drop j) = false)
    ∧ nameSpaceOf "ns__MyClass.cls" = "ns" ∧ nameSpaceOf "MyClass.cls" = "Custom" := by
  refine ⟨fun h => by simp [nameSpaceOf, h], fun h => ?_, by decide, by decide⟩
  have hs : hasSub "__".toList f.toList = true := h
  have hn : nameSpaceOf f = String.mk (beforeFirst "__".toList f.toList) := by
    simp [nameSpaceOf, h]
  rw [hn]
  exact beforeFirst_spec hs

theorem c4_nameSpace_witness :
    nameSpaceOf "MyClass.cls" = "Custom"
    ∧ ∃ suf : List Char,
        "ns__MyClass.cls".toList
          = (nameSpaceOf "ns__MyClass.cls").toList ++ "__".toList ++ suf
        ∧ ∀ j, j < (nameSpaceOf "ns__MyClass.cls").toList.length →
            leadsWith "__".toList ("ns__MyClass.cls".toList.drop j) = false :=
  ⟨(c4_nameSpace "MyClass.cls").1 (by decide),
   (c4_nameSpace "ns__MyClass.cls").2.1 (by decide)⟩

/-- C5: a file whose text starts with the exclusion marker `hidden` or
contains the test marker `@isTest` contributes zero match records, whatever
the catchers are, and removing it from any scan leaves the scan result
unchanged. -/
theorem c5_markers_skip (catchers : List Catcher) (f : FileEntry)
    (h : beginsWith f.text "hidden" = true ∨ hasSubStr f.text "@isTest" = true) :
    scanFile catchers f = []
    ∧ ∀ pre post : List FileEntry,
        runScan catchers (pre ++ f :: post) = runScan catchers (pre ++ post) := by
  have hskip : skippedFile f.text = true := by
    rcases h with h | h <;> simp [skippedFile, h]
  refine ⟨scanFile_of_skipped hskip, fun pre post => ?_⟩
  rw [runScan_append, runScan_append, runScan_cons, scanFile_of_skipped hskip,
    List.nil_append]

/-- Concrete catcher used by the witness of C5: it would match the file text
were the file not skipped. -/
def c5Catcher : Catcher :=
  { type := "OUTBOUND"
    subType := "HTTP"
    countMatches := fun t => if hasSubStr t "new HttpRequest" then 1 else 0
    detail := [] }

/-- Concrete test-marked file used by the witness of C5. -/
def c5File : FileEntry :=
  { name := "T.cls", text := "@isTest class T ... x = new HttpRequest();" }

theorem c5_markers_skip_witness :
    c5Catcher.countMatches c5File.text = 1
    ∧ scanFile [c5Catcher] c5File = []
    ∧ runScan [c5Catcher] ([] ++ c5File :: []) = runScan [c5Catcher] ([] ++ []) := by
  refine ⟨by decide, ?_, ?_⟩
  · exact (c5_markers_skip [c5Catcher] c5File (Or.inr (by decide))).1
  · exact (c5_markers_skip [c5Catcher] c5File (Or.inr (by decide))).2 [] []

/-- Concrete catcher used by the C6 theorems. -/
def c6Catcher : Catcher :=
  { type := "OUTBOUND"
    subType := "HTTP"
    countMatches := fun t => if hasSubStr t "new HttpRequest" then 1 else 0
    detail := [] }

/-- Concrete unreadable file used by the C6 theorems. -/
def c6Bad : FsFile := { name := "Bad.cls", read := .ioError "EACCES: permission denied" }

/-- Concrete readable, matching file used by the C6 theorems. -/
def c6Good : FsFile := { name := "Good.cls", read := .ok "x = new HttpRequest();" }

/-- C6 counterexample: with one unreadable file followed by a readable
matching file, the scan does not continue past the bad file with a warning —
it fails as a whole with the read error, although the same scan on the good
file alone yields its match record. The claim's promised behaviour (the
other file's results unaffected, no abort) does not hold. -/
theorem c6_io_counterexample :
    runScanFs [c6Catcher] [c6Bad, c6Good] = .error "EACCES: permission denied"
    ∧ (∀ rs, runScanFs [c6Catcher] [c6Bad, c6Good] ≠ .ok rs)
    ∧ runScanFs [c6Catcher] [c6Good]
        = .ok [⟨"OUTBOUND", "HTTP", "Good.cls", 1, []⟩] := by
  refine ⟨rfl, ?_, rfl⟩
  intro rs h
  rw [show runScanFs [c6Catcher] [c6Bad, c6Good]
      = .error "EACCES: permission denied" from rfl] at h
  exact Except.noConfusion h

/-- C6 (amended): if reading one file fails, the whole scan aborts with that
file's read error once every file before it has been read successfully; no
warning-and-continue happens and no result list is produced at all. -/
theorem c6_io_aborts_scan (catchers : List Catcher) (pre post : List FsFile)
    (f : FsFile) (e : String) (hf : f.read = .ioError e)
    (hpre : ∀ g ∈ pre, ∃ t, g.read = .ok t) :
    runScanFs catchers (pre ++ f :: post) = .error e := by
  induction pre with
  | nil => simp [runScanFs, hf]
  | cons g gs ih =>
    obtain ⟨t, ht⟩ := hpre g (by simp)
    have ih' := ih fun x hx => hpre x (by simp [hx])
    simp [runScanFs, ht, ih']

theorem c6_io_aborts_scan_witness :
    runScanFs [c6Catcher] ([c6Good] ++ c6Bad :: [c6Good])
      = .error "EACCES: permission denied" :=
  c6_io_aborts_scan [c6Catcher] [c6Good] [c6Good] c6Bad
    "EACCES: permission denied" rfl
    (by
      intro g hg
      rw [List.mem_singleton] at hg
      subst hg
      exact ⟨"x = new HttpRequest();", rfl⟩)

/-- C7: whatever value the report writer produces — including a value that
surfaces an export failure — the command still returns its payload with the
full sorted row collection, the writer's outcome embedded in it, and the
fixed summary string; the scan result does not depend on the writer. -/
theorem c7_export_nonfatal (ρ : Type) (gen : List ReportRow → List Column → ρ)
    (catchers : List Catcher) (files : List FileEntry) :
    (runCommand catchers files gen).payload.result
      = sortRows ((runScan catchers files).map toRow)
    ∧ (runCommand catchers files gen).payload.reportFiles
      = gen (sortRows ((runScan catchers files).map toRow)) auditColumns
    ∧ (runCommand catchers files gen).payload.outputString
      = "Processed callIns and callOuts audit" :=
  ⟨rfl, rfl, rfl⟩

/-- C8: sorting produces a new ordered sequence holding exactly the original
row records — a permutation of the input — and, the sort being a pure
function of the input list, the input sequence itself is left as it was. -/
theorem c8_sort_no_mutation (rows : List ReportRow) :
    List.Perm (sortRows rows) rows
    ∧ (∀ r : ReportRow, r ∈ sortRows rows ↔ r ∈ rows)
    ∧ (sortRows rows).length = rows.length :=
  ⟨sortRows_perm rows, fun _ => (sortRows_perm rows).mem_iff,
   (sortRows_perm rows).length_eq⟩

/-- C9: when no file matches any catcher, the pipeline completes with an
empty row collection, the console table renders zero rows, the export step
still runs (on the empty row list) and the payload carries the empty rows,
the writer's outcome and the summary string. -/
theorem c9_no_matches (ρ : Type) (catchers : List Catcher)
    (files : List FileEntry) (gen : List ReportRow → List Column → ρ)
    (h : ∀ f ∈ files, ∀ c ∈ catchers, c.countMatches f.text = 0) :
    (runCommand catchers files gen).payload.result = []
    ∧ (runCommand catchers files gen).consoleTable = []
    ∧ (runCommand catchers files gen).payload.reportFiles = gen [] auditColumns
    ∧ (runCommand catchers files gen).payload.outputString
      = "Processed callIns and callOuts audit" := by
  have hscan : runScan catchers files = [] := by
    apply List.flatMap_eq_nil_iff.mpr
    intro f hf
    by_cases hs : skippedFile f.text
    · simp [scanFile, hs]
    · simp only [scanFile, if_neg hs]
      apply List.flatMap_eq_nil_iff.mpr
      intro c hc
      simp [catchMatches, h f hf c hc]
  refine ⟨?_, ?_, ?_, rfl⟩ <;>
    simp [runCommand, hscan, sortRows, tableRows]

/-- Concrete catcher used by the witness of C9. -/
def c9Catcher : Catcher :=
  { type := "INBOUND"
    subType := "REST"
    countMatches := fun t => if hasSubStr t "@RestResource" then 1 else 0
    detail := [] }

/-- Concrete non-matching file used by the witness of C9. -/
def c9File : FileEntry := { name := "P.cls", text := "public class P \x7b \x7d" }

/-- Concrete report writer used by the witness of C9. -/
def c9Gen (rows : List ReportRow) (cols : List Column) : Nat :=
  rows.length + cols.length

theorem c9_no_matches_witness :
    (runCommand [c9Catcher] [c9File] c9Gen).payload.result = []
    ∧ (runCommand [c9Catcher] [c9File] c9Gen).consoleTable = []
    ∧ (runCommand [c9Catcher] [c9File] c9Gen).payload.reportFiles
      = c9Gen [] auditColumns := by
  have h := c9_no_matches Nat [c9Catcher] [c9File] c9Gen
    (by intro f hf c hc; fin_cases hf; fin_cases hc; decide)
  exact ⟨h.1, h.2.1, h.2.2.1⟩

/-- C10: the console table is rendered from a deep copy of the sorted rows:
the copy reproduces every field of a row, the table rows are the copies with
`detail` removed, and the rows handed to the report writer and returned in
the payload are the sorted rows themselves, every field — `detail`
included — unchanged by the rendering step. -/
theorem c10_render_on_copy :
    (∀ r : ReportRow, cloneRow r = r)
    ∧ (∀ rows : List ReportRow, tableRows rows = rows.map stripDetail)
    ∧ ∀ (ρ : Type) (gen : List ReportRow → List Column → ρ)
        (catchers : List Catcher) (files : List FileEntry),
        (runCommand catchers files gen).consoleTable
          = ((runCommand catchers files gen).payload.result).map stripDetail
        ∧ (runCommand catchers files gen).payload.reportFiles
          = gen ((runCommand catchers files gen).payload.result) auditColumns := by
  have hclone : ∀ r : ReportRow, cloneRow r = r := fun _ => rfl
  refine ⟨hclone, fun rows => ?_, fun ρ gen catchers files => ⟨?_, rfl⟩⟩
  · rw [tableRows, show cloneRow = id from rfl, List.map_id]
  · show tableRows (sortRows ((runScan catchers files).map toRow)) = _
    rw [tableRows, show cloneRow = id from rfl, List.map_id]
    rfl

end CallInCallOut
